import Mathlib

/-!
Verification of the infinize-crawler core against its specification.

Each definition below is a shallow embedding of one function of the
JavaScript/TypeScript source.  Machine dates (`new Date().toISOString()`)
are modelled by passing the timestamp string as an explicit argument;
file-system state is modelled by explicit values (the stored progress
record is an `Option ProgressRecord`, `none` standing for a missing or
unreadable file, which the source handles through its `try/catch`).
JS strings are modelled by Lean `String` (one `Char` per UTF-16 unit on
the inputs considered, all of which are in the Basic Multilingual Plane).
-/

/- ## Progress writer (`src/crawler/progressWriter.js`)

The durable progress record.  JSON `null` fields are modelled by
`Option`. -/

structure ProgressRecord where
  status : String
  pagesProcessed : Nat
  totalEnqueued : Nat
  currentUrl : String
  startTime : String
  endTime : Option String
  seedUrl : String
  universityName : String
  error : Option String
  outputFile : Option String
deriving Repr, DecidableEq

/-- Model of `initProgress` (progressWriter.js): the record created for a new crawl.
`now` models `new Date().toISOString()`. -/
def initProgress (now seedUrl universityName : String) : ProgressRecord :=
  { status := "starting"
    pagesProcessed := 0
    totalEnqueued := 0
    currentUrl := seedUrl
    startTime := now
    endTime := none
    seedUrl := seedUrl
    universityName := universityName
    error := none
    outputFile := none }

/-- Model of `updateProgress` (progressWriter.js): read-modify-write of the stored
record.  When the read fails (`none`) the catch block writes nothing. -/
def updateProgress (store : Option ProgressRecord)
    (pagesProcessed totalEnqueued : Nat) (currentUrl : String) :
    Option ProgressRecord :=
  store.map fun progress =>
    { progress with
      status := "running"
      pagesProcessed := pagesProcessed
      totalEnqueued := totalEnqueued
      currentUrl := currentUrl }

/-- Model of `completeProgress` (progressWriter.js). -/
def completeProgress (store : Option ProgressRecord)
    (pagesProcessed : Nat) (outputFile now : String) :
    Option ProgressRecord :=
  store.map fun progress =>
    { progress with
      status := "completed"
      pagesProcessed := pagesProcessed
      totalEnqueued := pagesProcessed
      endTime := some now
      outputFile := some outputFile
      currentUrl := "" }

/-- Model of `failProgress` (progressWriter.js). -/
def failProgress (store : Option ProgressRecord) (error now : String) :
    Option ProgressRecord :=
  store.map fun progress =>
    { progress with
      status := "failed"
      endTime := some now
      error := some error }

/- ## Theorems for claims C1, C9, C10 -/

/-- C1 counterexample: after `completeProgress` has written the terminal
record, a later `updateProgress` call does change the stored record, and
its status reverts to `"running"`.  Concrete run: init, complete with 5
pages, then one more update. -/
theorem updateProgress_after_complete_changes_record :
    (updateProgress
        (completeProgress
          (some (initProgress "2024-01-01T00:00:00Z" "https://u.edu" "Test University"))
          5 "output/test.md" "2024-01-01T01:00:00Z")
        6 7 "https://u.edu/late")
      ≠
      (completeProgress
        (some (initProgress "2024-01-01T00:00:00Z" "https://u.edu" "Test University"))
        5 "output/test.md" "2024-01-01T01:00:00Z")
    ∧ ((updateProgress
        (completeProgress
          (some (initProgress "2024-01-01T00:00:00Z" "https://u.edu" "Test University"))
          5 "output/test.md" "2024-01-01T01:00:00Z")
        6 7 "https://u.edu/late").map (fun p => p.status)) = some "running" := by
  constructor
  · decide
  · decide

/-- C1 (amended): `updateProgress` has no terminal-state guard.  Even when
the stored record's status is `"completed"` or `"failed"`, a later
`updateProgress` sets the status back to `"running"` and overwrites
`pagesProcessed`, `totalEnqueued` and `currentUrl`, while leaving every
other field as last recorded. -/
theorem updateProgress_ignores_terminal_status (p : ProgressRecord)
    (pp te : Nat) (cu : String)
    (_hterm : p.status = "completed" ∨ p.status = "failed") :
    updateProgress (some p) pp te cu =
      some { p with
             status := "running"
             pagesProcessed := pp
             totalEnqueued := te
             currentUrl := cu } := by
  rfl

/-- Witness for `updateProgress_ignores_terminal_status` at a concrete
completed record. -/
theorem updateProgress_ignores_terminal_status_witness :
    updateProgress
        (some { initProgress "t0" "https://u.edu" "U" with status := "completed" })
        3 4 "https://u.edu/x" =
      some { initProgress "t0" "https://u.edu" "U" with
             status := "running"
             pagesProcessed := 3
             totalEnqueued := 4
             currentUrl := "https://u.edu/x" } :=
  updateProgress_ignores_terminal_status
    { initProgress "t0" "https://u.edu" "U" with status := "completed" }
    3 4 "https://u.edu/x" (Or.inl rfl)

/-- C9: `failProgress` on an existing record changes only `status`,
`endTime` and `error`; the constructor on the right lists every other
field as the previously stored value. -/
theorem failProgress_frame (p : ProgressRecord) (err now : String) :
    failProgress (some p) err now =
      some { status := "failed"
             pagesProcessed := p.pagesProcessed
             totalEnqueued := p.totalEnqueued
             currentUrl := p.currentUrl
             startTime := p.startTime
             endTime := some now
             seedUrl := p.seedUrl
             universityName := p.universityName
             error := some err
             outputFile := p.outputFile } := by
  rfl

/-- C10: `completeProgress` overwrites the stored `totalEnqueued` with the
final `pagesProcessed` value, so after completion the record always has
`totalEnqueued = pagesProcessed = n`, whatever was recorded before. -/
theorem completeProgress_totalEnqueued_eq_pagesProcessed
    (p : ProgressRecord) (n : Nat) (outputFile now : String) :
    (completeProgress (some p) n outputFile now).map
        (fun q => (q.totalEnqueued, q.pagesProcessed)) = some (n, n) := by
  rfl

/- ## Label sanitization

Three modules derive the per-job directory name.
`progressWriter.js` and `singleFileFormatter.js` inline
`name.toLowerCase().replace(/\s+/g, '-').replace(/[^a-z0-9-]/g, '')`;
the per-page formatters instead call `sanitizeUniversityName` from
`src/src/utils/sanitizer.js`. -/

/-- The characters matched by the regex class `\s` (ASCII part; the
labels considered contain no exotic Unicode spaces). -/
def isJsWhitespace (c : Char) : Bool :=
  c == ' ' || c == '\t' || c == '\n' || c == '\r' || c == '\x0b' || c == '\x0c'

/-- Model of `replace(/X+/g, sub)` for a character class `X` given by `p`: every
maximal run of characters satisfying `p` is replaced by the single
character `sub`. -/
def replaceRuns (p : Char → Bool) (sub : Char) : List Char → List Char
  | [] => []
  | [c] => if p c then [sub] else [c]
  | a :: b :: rest =>
    if p a && p b then replaceRuns p sub (b :: rest)
    else (if p a then sub else a) :: replaceRuns p sub (b :: rest)

/-- Model of `replace(/^c+|c+$/g, '')`: strip the character `c` from both ends. -/
def dropEdges (c : Char) (l : List Char) : List Char :=
  ((l.dropWhile (· == c)).reverse.dropWhile (· == c)).reverse

/-- Characters kept by `replace(/[^a-z0-9-]/g, '')`. -/
def isLabelChar (c : Char) : Bool :=
  ('a' ≤ c && c ≤ 'z') || ('0' ≤ c && c ≤ '9') || c == '-'

/-- The inline sanitization in `getProgressFilePath`
(progressWriter.js): lowercase, collapse whitespace runs to hyphens,
strip everything outside `[a-z0-9-]`. -/
def progressSanitizeLabel (name : String) : String :=
  String.mk ((replaceRuns isJsWhitespace '-' (name.data.map Char.toLower)).filter isLabelChar)

/-- The inline sanitization in `getSingleFilePath`
(singleFileFormatter.js), textually the same expression as in
`getProgressFilePath`. -/
def singleFileSanitizeLabel (name : String) : String :=
  String.mk ((replaceRuns isJsWhitespace '-' (name.data.map Char.toLower)).filter isLabelChar)

/-- The words removed (case-insensitively, as plain substrings) by
`sanitizeUniversityName`, in the alternation order of its regex. -/
def commonWords : List (List Char) :=
  ["university".data, "college".data, "institute".data,
   "of".data, "the".data, "and".data, "&".data]

/-- One pass of `replace(/university|college|institute|of|the|and|&/gi, ' ')`:
scan left to right; at each position the leftmost-preferred alternative
that matches is replaced by one space.  `fuel` bounds the recursion (it
never runs out: every step consumes at least one character). -/
def replaceCommonWordsAux : Nat → List Char → List Char
  | 0, l => l
  | _ + 1, [] => []
  | fuel + 1, c :: rest =>
    match commonWords.findSome?
        (fun w => if w.isPrefixOf (c :: rest) then some w.length else none) with
    | some k => ' ' :: replaceCommonWordsAux fuel (List.drop k (c :: rest))
    | none => c :: replaceCommonWordsAux fuel rest

def replaceCommonWords (l : List Char) : List Char :=
  replaceCommonWordsAux l.length l

/-- Model of `sanitizeUniversityName` (src/src/utils/sanitizer.js): lowercase,
remove common words, hyphenate non-alphanumeric runs, collapse and trim
hyphens, truncate to 50, with fallbacks for empty input and output. -/
def sanitizeUniversityName (name : String) : String :=
  if name = "" then "unknown-university"
  else
    let l := name.data.map Char.toLower
    let l := replaceCommonWords l
    let l := replaceRuns (fun c => !(('a' ≤ c && c ≤ 'z') || ('0' ≤ c && c ≤ '9'))) '-' l
    let l := replaceRuns (fun c => c == '-') '-' l
    let l := dropEdges '-' l
    let l := if l.length > 50
      then ((l.take 50).reverse.dropWhile (· == '-')).reverse
      else l
    if l.isEmpty then "university" else String.mk l

/-- C3 counterexample: the two label-sanitization functions are not equal
as functions on strings; on the label `"Test University"` the per-page
sanitizer removes the word `"university"` while the progress-record
sanitizer keeps it. -/
theorem sanitizeUniversityName_ne_progressSanitizeLabel :
    sanitizeUniversityName "Test University" ≠
      progressSanitizeLabel "Test University" := by
  decide

/-- C3 (amended): the progress record and the single consolidated
document derive the directory component with the same function
(lowercase, whitespace runs to hyphens, strip outside `[a-z0-9-]`), but
the per-page formatter directory uses `sanitizeUniversityName`, which is
a different function: on `"Test University"` it yields `"test"` while
the progress/single-file sanitizer yields `"test-university"`. -/
theorem labelSanitizers_progress_eq_singleFile_but_ne_perPage :
    (∀ s : String, progressSanitizeLabel s = singleFileSanitizeLabel s)
    ∧ sanitizeUniversityName "Test University" = "test"
    ∧ progressSanitizeLabel "Test University" = "test-university" := by
  refine ⟨fun s => rfl, ?_, ?_⟩
  · decide
  · decide

/- ## Extracted page data (`src/crawler/handlers/pageHandler.js`)

`extractPageData` returns
`{ url, title, headings: {h1, h2, h3}, mainText, internalLinks, crawledAt }`. -/

structure Headings where
  h1 : List String
  h2 : List String
  h3 : List String
deriving Repr, DecidableEq

structure PageData where
  url : String
  title : String
  headings : Headings
  mainText : String
  internalLinks : List String
  crawledAt : String
deriving Repr, DecidableEq

/- ## Single-file formatter (`src/crawler/singleFileFormatter.js`)

`formatPageSection` reads a record of a different shape than the one the
extractor produces: a flat `headings` array of `{level, text}`, a
`mainContent` string, a `metaDescription`, and a `links` array of
`{href, text, isInternal}`. -/

structure SFHeading where
  level : Nat
  text : String
deriving Repr, DecidableEq

structure SFLink where
  href : String
  text : String
  isInternal : Bool
deriving Repr, DecidableEq

/-- The shape `formatPageSection` expects.  `Option` models fields whose
JS value may be absent (`undefined`), which is falsy. -/
structure SFPageData where
  title : String
  url : String
  crawledAt : String
  metaDescription : Option String
  headings : List SFHeading
  mainContent : Option String
  links : List SFLink
deriving Repr, DecidableEq

/-- Model of `'  '.repeat(Math.max(0, heading.level - 1))` (natural subtraction
already truncates at zero). -/
def sfIndent (level : Nat) : String :=
  String.join (List.replicate (level - 1) "  ")

/-- The lines pushed by `formatPageSection` (singleFileFormatter.js),
section by section in source order.  A `some ""` (JS empty string) is
falsy, so those sections are also skipped. -/
def formatPageSectionLines (pd : SFPageData) : List String :=
  ["---", "",
   "## " ++ (if pd.title = "" then "Untitled Page" else pd.title), "",
   "**URL:** " ++ pd.url,
   "**Crawled:** " ++ pd.crawledAt, ""]
  ++ (match pd.metaDescription with
      | some d => if d = "" then [] else ["> " ++ d, ""]
      | none => [])
  ++ (if pd.headings.length > 0 then
        ["### Headings", ""]
        ++ (pd.headings.take 10).map (fun h => sfIndent h.level ++ "- " ++ h.text)
        ++ (if pd.headings.length > 10
            then ["  - ... and " ++ toString (pd.headings.length - 10) ++ " more"]
            else [])
        ++ [""]
      else [])
  ++ (match pd.mainContent with
      | some mc =>
        if mc = "" then []
        else
          ["### Content", "", mc.take 5000]
          ++ (if mc.length > 5000 then ["", "*[Content truncated...]*"] else [])
          ++ [""]
      | none => [])
  ++ (if pd.links.length > 0 then
        let internalLinks := (pd.links.filter (fun l => l.isInternal)).take 10
        if internalLinks.length > 0 then
          ["### Links Found", ""]
          ++ internalLinks.map (fun l =>
               "- [" ++ (if l.text = "" then l.href else l.text) ++ "](" ++ l.href ++ ")")
          ++ (if (pd.links.filter (fun l => l.isInternal)).length > 10
              then ["- ... and more internal links"]
              else [])
          ++ [""]
        else []
      else [])
  ++ [""]

/-- Model of `formatPageSection`: `lines.join('\n')`. -/
def formatPageSection (pd : SFPageData) : String :=
  String.intercalate "\n" (formatPageSectionLines pd)

/-- The value `appendToSingleFile` actually hands to `formatPageSection`:
the extractor's `PageData`.  Under JS semantics the property reads
`pageData.metaDescription`, `pageData.mainContent` and `pageData.links`
yield `undefined` (those fields do not exist on extractor records), and
`pageData.headings` is the `{h1, h2, h3}` object, whose `.length` is
`undefined`, so the guard `pageData.headings && pageData.headings.length > 0`
is false.  All four optional sections are therefore skipped, which this
translation renders as absent/empty fields of the expected shape. -/
def pageDataAsSingleFileInput (pd : PageData) : SFPageData :=
  { title := pd.title
    url := pd.url
    crawledAt := pd.crawledAt
    metaDescription := none
    headings := []
    mainContent := none
    links := [] }

/-- C2: for every `PageData` produced by the extractor, the section
appended to the consolidated file consists of the title and metadata
lines only — the headings, content and internal-links sections are never
emitted, whatever the page's headings, main text and links are, because
`formatPageSection` reads fields (`headings.length`, `mainContent`,
`links`, `metaDescription`) that do not exist on extractor records. -/
theorem formatPageSection_on_extractor_data_is_header_only (pd : PageData) :
    formatPageSection (pageDataAsSingleFileInput pd) =
      String.intercalate "\n"
        ["---", "",
         "## " ++ (if pd.title = "" then "Untitled Page" else pd.title), "",
         "**URL:** " ++ pd.url,
         "**Crawled:** " ++ pd.crawledAt, "", ""] := by
  simp [formatPageSection, formatPageSectionLines, pageDataAsSingleFileInput]

/- ## Per-page Markdown formatter (markdownFormatter, in the
`src/src` tree next to `sanitizer.js`) -/

/-- Model of `hasHeadings` (markdown formatter). -/
def hasHeadings (h : Headings) : Bool :=
  h.h1.length > 0 || h.h2.length > 0 || h.h3.length > 0

/-- Title and metadata lines of `formatMarkdown`. -/
def mdTitleLines (pd : PageData) : List String :=
  ["# " ++ (if pd.title = "" then "Untitled Page" else pd.title), "",
   "**URL:** [" ++ pd.url ++ "](" ++ pd.url ++ ")",
   "**Crawled:** " ++ pd.crawledAt, ""]

/-- Headings section lines of `formatMarkdown`. -/
def mdHeadingLines (h : Headings) : List String :=
  if hasHeadings h then
    ["---", "", "## Page Structure", ""]
    ++ (if h.h1.length > 0
        then ["### H1 Headings"] ++ h.h1.map (fun t => "- " ++ t) ++ [""] else [])
    ++ (if h.h2.length > 0
        then ["### H2 Headings"] ++ h.h2.map (fun t => "- " ++ t) ++ [""] else [])
    ++ (if h.h3.length > 0
        then ["### H3 Headings"] ++ h.h3.map (fun t => "- " ++ t) ++ [""] else [])
  else []

/-- Content section lines of `formatMarkdown`: content over the
5000-character budget is cut to the budget and marked with `"..."`. -/
def mdContentLines (mainText : String) : List String :=
  if mainText.length > 0 then
    let content := if mainText.length > 5000 then mainText.take 5000 ++ "..." else mainText
    ["---", "", "## Content", "", content, ""]
  else []

/-- Internal-links section lines of `formatMarkdown` (cap of 50 links
with an overflow note). -/
def mdLinksLines (links : List String) : List String :=
  if links.length > 0 then
    ["---", "", "## Internal Links", "",
     "Found " ++ toString links.length ++ " internal links:", ""]
    ++ (links.take 50).map (fun l => "- [" ++ l ++ "](" ++ l ++ ")")
    ++ (if links.length > 50
        then ["", "_...and " ++ toString (links.length - 50) ++ " more links_"]
        else [])
    ++ [""]
  else []

/-- Model of `formatMarkdown`: all pushed lines joined with `'\n'`. -/
def formatMarkdown (pd : PageData) : String :=
  String.intercalate "\n"
    (mdTitleLines pd ++ mdHeadingLines pd.headings
      ++ mdContentLines pd.mainText ++ mdLinksLines pd.internalLinks)

/- ## Per-page HTML formatter (`src/crawler/formatters/htmlFormatter.js`) -/

/-- Character-wise form of `escapeHtml`'s five sequential global
replaces; they are equivalent to one pass because no replacement string
contains a character replaced by a later step. -/
def escapeHtmlChar (c : Char) : String :=
  if c = '&' then "&amp;"
  else if c = '<' then "&lt;"
  else if c = '>' then "&gt;"
  else if c = '"' then "&quot;"
  else if c = Char.ofNat 39 then "&#039;"
  else String.singleton c

/-- Model of `escapeHtml` (htmlFormatter.js); `!text` short-circuits on the empty
string. -/
def escapeHtml (text : String) : String :=
  if text = "" then "" else String.join (text.data.map escapeHtmlChar)

/-- The HTML produced around an (already escaped) content body by
`formatContentSection`'s template literal. -/
def htmlContentTemplate (body : String) : String :=
  "\n        <h2>Content</h2>\n        <div class=\"content-section\">\n            <p>"
  ++ body ++ "</p>\n        </div>"

/-- Model of `formatContentSection` (htmlFormatter.js): same 5000-character
truncation rule as the Markdown formatter, then HTML-escaped. -/
def formatContentSection (mainText : String) : String :=
  if mainText = "" then ""
  else
    let content := if mainText.length > 5000 then mainText.take 5000 ++ "..." else mainText
    htmlContentTemplate (escapeHtml content)

/-- C7: content exactly at the 5000-character budget passes through both
per-page formatters unmodified (no truncation marker); content at least
one character over is cut to exactly the first 5000 characters followed
by the `"..."` marker. -/
theorem perPage_truncation_boundary (pd : PageData) :
    (pd.mainText.length = 5000 →
      mdContentLines pd.mainText = ["---", "", "## Content", "", pd.mainText, ""]
      ∧ formatContentSection pd.mainText = htmlContentTemplate (escapeHtml pd.mainText))
    ∧ (pd.mainText.length > 5000 →
      mdContentLines pd.mainText =
        ["---", "", "## Content", "", pd.mainText.take 5000 ++ "...", ""]
      ∧ formatContentSection pd.mainText =
        htmlContentTemplate (escapeHtml (pd.mainText.take 5000 ++ "..."))) := by
  constructor
  · intro h
    have hne : pd.mainText ≠ "" := by
      intro he
      rw [he] at h
      simp at h
    constructor
    · simp [mdContentLines, h]
    · simp [formatContentSection, hne, h]
  · intro h
    have hne : pd.mainText ≠ "" := by
      intro he
      rw [he] at h
      simp at h
    have h0 : pd.mainText.length > 0 := by omega
    constructor
    · simp [mdContentLines, h0, h]
    · simp [formatContentSection, hne, h]

theorem length_mk_replicate (n : Nat) (c : Char) :
    (String.mk (List.replicate n c)).length = n := by
  simp [String.length]

/-- Witness for `perPage_truncation_boundary`: a page whose main text is
exactly 5000 characters, and one that is 5001 characters. -/
theorem perPage_truncation_boundary_witness :
    (mdContentLines (String.mk (List.replicate 5000 'a')) =
        ["---", "", "## Content", "", String.mk (List.replicate 5000 'a'), ""]
      ∧ formatContentSection (String.mk (List.replicate 5000 'a')) =
        htmlContentTemplate (escapeHtml (String.mk (List.replicate 5000 'a'))))
    ∧ (mdContentLines (String.mk (List.replicate 5001 'a')) =
        ["---", "", "## Content", "",
         (String.mk (List.replicate 5001 'a')).take 5000 ++ "...", ""]
      ∧ formatContentSection (String.mk (List.replicate 5001 'a')) =
        htmlContentTemplate
          (escapeHtml ((String.mk (List.replicate 5001 'a')).take 5000 ++ "..."))) := by
  constructor
  · exact (perPage_truncation_boundary
      { url := "https://u.edu", title := "T", headings := ⟨[], [], []⟩,
        mainText := String.mk (List.replicate 5000 'a'), internalLinks := [],
        crawledAt := "t" }).1 (length_mk_replicate 5000 'a')
  · exact (perPage_truncation_boundary
      { url := "https://u.edu", title := "T", headings := ⟨[], [], []⟩,
        mainText := String.mk (List.replicate 5001 'a'), internalLinks := [],
        crawledAt := "t" }).2 (by rw [length_mk_replicate]; omega)

/- ## Links aggregator (`src/src/formatters/linksFormatter.js`)

The crawl-wide `Set` of URLs is modelled by its insertion-order element
list (no duplicates ever enter).  `Set.prototype.add` is `setAdd`;
JS `Array.prototype.sort` (stable, default string comparison) is
modelled by `List.insertionSort`, a stable sort — any two stable sorts
under a total transitive order agree element for element. -/

/-- Model of `allLinks.add(x)` on a JS `Set` represented by its element list. -/
def setAdd (s : List String) (x : String) : List String :=
  if x ∈ s then s else s ++ [x]

/-- Model of `addLinks(pageData)`: adds the page's own URL and every internal
link to the aggregate. -/
def addLinks (s : List String) (pd : PageData) : List String :=
  pd.internalLinks.foldl setAdd (setAdd s pd.url)

/-- Model of `Array.from(linksState.allLinks).sort()` in `formatLinks`. -/
def sortedLinks (s : List String) : List String :=
  List.insertionSort (· ≤ ·) s

theorem mem_setAdd_of_mem {s : List String} {x y : String} (h : y ∈ s) :
    y ∈ setAdd s x := by
  unfold setAdd
  split
  · exact h
  · exact List.mem_append_left _ h

theorem self_mem_setAdd (s : List String) (x : String) : x ∈ setAdd s x := by
  unfold setAdd
  split
  · assumption
  · exact List.mem_append_right _ (List.mem_singleton.mpr rfl)

theorem mem_foldl_setAdd_of_mem {acc : List String} {y : String}
    (L : List String) (h : y ∈ acc) : y ∈ L.foldl setAdd acc := by
  induction L generalizing acc with
  | nil => exact h
  | cons a t ih => exact ih (mem_setAdd_of_mem h)

theorem mem_foldl_setAdd_of_mem_list {acc : List String} {y : String}
    {L : List String} (h : y ∈ L) : y ∈ L.foldl setAdd acc := by
  induction L generalizing acc with
  | nil => cases h
  | cons a t ih =>
    rcases List.mem_cons.mp h with h | h
    · subst h
      exact mem_foldl_setAdd_of_mem t (self_mem_setAdd acc y)
    · exact ih h

theorem setAdd_nodup {s : List String} (h : s.Nodup) (x : String) :
    (setAdd s x).Nodup := by
  unfold setAdd
  split
  · exact h
  · simpa using List.Nodup.append h (List.nodup_singleton x)
      (by simpa using fun hx => by simp_all)

theorem foldl_setAdd_nodup {acc : List String} (h : acc.Nodup) (L : List String) :
    (L.foldl setAdd acc).Nodup := by
  induction L generalizing acc with
  | nil => exact h
  | cons a t ih => exact ih (setAdd_nodup h a)

theorem setAdd_idem (s : List String) (x : String) :
    setAdd (setAdd s x) x = setAdd s x := by
  unfold setAdd
  split
  · rfl
  · simp

theorem count_setAdd_self {s : List String} (h : s.Nodup) (x : String) :
    (setAdd s x).count x = 1 := by
  unfold setAdd
  split
  · exact List.count_eq_one_of_mem h (by assumption)
  · rename_i hx
    rw [List.count_append, List.count_eq_zero_of_not_mem hx]
    simp

/-- C4: the Links aggregate only grows under `addLinks`; after
`addLinks` it contains the page URL and every internal link; repeated
insertion of the same URL keeps exactly one occurrence; and
`formatLinks` materializes it as a sorted, duplicate-free permutation of
the accumulated set. -/
theorem linksAggregate_set_semantics (s : List String) (pd : PageData)
    (x : String) (hnd : s.Nodup) :
    (∀ y ∈ s, y ∈ addLinks s pd)
    ∧ pd.url ∈ addLinks s pd
    ∧ (∀ l ∈ pd.internalLinks, l ∈ addLinks s pd)
    ∧ (addLinks s pd).Nodup
    ∧ setAdd (setAdd s x) x = setAdd s x
    ∧ (setAdd s x).count x = 1
    ∧ (sortedLinks s).Sorted (· ≤ ·)
    ∧ (sortedLinks s).Nodup
    ∧ List.Perm (sortedLinks s) s := by
  refine ⟨?_, ?_, ?_, ?_, setAdd_idem s x, count_setAdd_self hnd x, ?_, ?_, ?_⟩
  · intro y hy
    exact mem_foldl_setAdd_of_mem _ (mem_setAdd_of_mem hy)
  · exact mem_foldl_setAdd_of_mem _ (self_mem_setAdd s pd.url)
  · intro l hl
    exact mem_foldl_setAdd_of_mem_list hl
  · exact foldl_setAdd_nodup (setAdd_nodup hnd pd.url) pd.internalLinks
  · exact List.sorted_insertionSort _ s
  · exact (List.perm_insertionSort _ s).nodup_iff.mpr hnd
  · exact List.perm_insertionSort _ s

/-- Witness for `linksAggregate_set_semantics` on a concrete aggregate
state and page. -/
theorem linksAggregate_set_semantics_witness :
    (∀ y ∈ ["https://u.edu/b", "https://u.edu/a"],
        y ∈ addLinks ["https://u.edu/b", "https://u.edu/a"]
          { url := "https://u.edu", title := "T", headings := ⟨[], [], []⟩,
            mainText := "", internalLinks := ["https://u.edu/a", "https://u.edu/c"],
            crawledAt := "t" })
    ∧ ("https://u.edu" : String) ∈ addLinks ["https://u.edu/b", "https://u.edu/a"]
          { url := "https://u.edu", title := "T", headings := ⟨[], [], []⟩,
            mainText := "", internalLinks := ["https://u.edu/a", "https://u.edu/c"],
            crawledAt := "t" }
    ∧ (∀ l ∈ ["https://u.edu/a", "https://u.edu/c"],
        l ∈ addLinks ["https://u.edu/b", "https://u.edu/a"]
          { url := "https://u.edu", title := "T", headings := ⟨[], [], []⟩,
            mainText := "", internalLinks := ["https://u.edu/a", "https://u.edu/c"],
            crawledAt := "t" })
    ∧ (addLinks ["https://u.edu/b", "https://u.edu/a"]
          { url := "https://u.edu", title := "T", headings := ⟨[], [], []⟩,
            mainText := "", internalLinks := ["https://u.edu/a", "https://u.edu/c"],
            crawledAt := "t" }).Nodup
    ∧ setAdd (setAdd ["https://u.edu/b", "https://u.edu/a"] "https://u.edu/a")
          "https://u.edu/a"
        = setAdd ["https://u.edu/b", "https://u.edu/a"] "https://u.edu/a"
    ∧ (setAdd ["https://u.edu/b", "https://u.edu/a"] "https://u.edu/a").count
          "https://u.edu/a" = 1
    ∧ (sortedLinks ["https://u.edu/b", "https://u.edu/a"]).Sorted (· ≤ ·)
    ∧ (sortedLinks ["https://u.edu/b", "https://u.edu/a"]).Nodup
    ∧ List.Perm (sortedLinks ["https://u.edu/b", "https://u.edu/a"])
        ["https://u.edu/b", "https://u.edu/a"] :=
  linksAggregate_set_semantics ["https://u.edu/b", "https://u.edu/a"]
    { url := "https://u.edu", title := "T", headings := ⟨[], [], []⟩,
      mainText := "", internalLinks := ["https://u.edu/a", "https://u.edu/c"],
      crawledAt := "t" }
    "https://u.edu/a" (by decide)

/- ## URL normalization (`src/src/utils/urlUtils.js` and the fuller
`urlUtils.js` variant bundled in `src/unnamed/part_003`)

A parsed WHATWG `URL` object is modelled structurally: the constructor
has already resolved dot segments, percent-encoded what must be encoded
and lowercased the hostname of special URLs; `normalizeUrl` only
manipulates the components below.  Assigning to `urlObj.pathname` runs
the URL parser on the given string: for an http(s) URL an empty string
yields the root path `/` (modelled by `setPathname`); the strings
assigned here are otherwise already-canonical pathnames, which the
parser keeps unchanged.  Serializing and re-parsing a URL round-trips
every component, so idempotence of `normalize` over strings is exactly
idempotence over this structural model. -/

structure UrlObj where
  scheme : String
  hostname : List Char
  pathname : List Char
  params : List (String × String)
  hash : String
deriving Repr, DecidableEq

/-- Lowercasing as `map Char.toLower`, the model of `String.prototype.toLowerCase` on
the ASCII strings involved. -/
def toLowerL (l : List Char) : List Char :=
  l.map Char.toLower

/-- Model of `replace(/\/+$/, '')`: drop every trailing `/`. -/
def stripTrailingSlashes (l : List Char) : List Char :=
  (l.reverse.dropWhile (· == '/')).reverse

/-- Whether the list contains two adjacent slashes (a match of `\/+`
longer than one character). -/
def hasDoubleSlash : List Char → Bool
  | [] => false
  | [_] => false
  | a :: b :: rest => (a == '/' && b == '/') || hasDoubleSlash (b :: rest)

/-- Model of `replace(/\/+/g, '/')`: collapse every run of slashes to one. -/
def collapseSlashes : List Char → List Char
  | [] => []
  | [c] => [c]
  | a :: b :: rest =>
    if a == '/' && b == '/' then collapseSlashes (b :: rest)
    else a :: collapseSlashes (b :: rest)

/-- The ten concrete suffixes matched by
`/\/(index|default)\.(html?|php|aspx?)$/i` (case-insensitively). -/
def indexSuffixes : List (List Char) :=
  ["/index.htm".data, "/index.html".data, "/index.php".data,
   "/index.asp".data, "/index.aspx".data,
   "/default.htm".data, "/default.html".data, "/default.php".data,
   "/default.asp".data, "/default.aspx".data]

/-- Case-insensitive suffix test. -/
def endsWithCI (l pat : List Char) : Bool :=
  (toLowerL pat).isSuffixOf (toLowerL l)

/-- The matched index/default suffix, if any. -/
def findIndexSuffix (l : List Char) : Option (List Char) :=
  indexSuffixes.find? (fun pat => endsWithCI l pat)

def hasIndexSuffix (l : List Char) : Bool :=
  (findIndexSuffix l).isSome

/-- Model of `replace(/\/(index|default)\.(html?|php|aspx?)$/i, '')`. -/
def stripIndexSuffix (l : List Char) : List Char :=
  match findIndexSuffix l with
  | some pat => l.take (l.length - pat.length)
  | none => l

/-- The `urlObj.pathname = s` setter on an http(s) URL: parsing the
empty string yields the root path. -/
def setPathname (l : List Char) : List Char :=
  if l = [] then ['/'] else l

/-- Model of `TRACKING_PARAMS` (part_003 urlUtils). -/
def trackingParams : List String :=
  ["utm_source", "utm_medium", "utm_campaign", "utm_term", "utm_content",
   "utm_id", "fbclid", "gclid", "gclsrc", "dclid", "msclkid", "mc_cid",
   "mc_eid", "ref", "source", "campaign", "_ga", "_gl", "hsCtaTracking",
   "hsa_acc", "hsa_cam", "hsa_grp", "hsa_ad", "hsa_src", "hsa_tgt",
   "hsa_kw", "hsa_mt", "hsa_net", "hsa_ver"]

/-- Model of `String([k, v])` as used by the default `Array.prototype.sort`
comparator on `URLSearchParams` entries. -/
def pairKey (kv : String × String) : String :=
  kv.1 ++ "," ++ kv.2

/-- The order `[...entries()].sort()` sorts by: lexicographic comparison
of `pairKey`. -/
def pairLe (a b : String × String) : Prop :=
  pairKey a ≤ pairKey b

instance : DecidableRel pairLe := fun a b =>
  inferInstanceAs (Decidable (pairKey a ≤ pairKey b))

instance : IsTrans (String × String) pairLe :=
  ⟨fun _ _ _ h₁ h₂ => le_trans h₁ h₂⟩

instance : IsTotal (String × String) pairLe :=
  ⟨fun a b => le_total (pairKey a) (pairKey b)⟩

/-- Model of `[...params.entries()].sort()`: JS `sort` is stable, so it is
modelled by a stable sort. -/
def sortPairs (l : List (String × String)) : List (String × String) :=
  List.insertionSort pairLe l

/-- Model of `params.delete(p)` for every tracking parameter. -/
def deleteTrackingParams (l : List (String × String)) : List (String × String) :=
  l.filter (fun kv => decide (kv.1 ∉ trackingParams))

/-- Model of `if (urlObj.pathname !== '/') urlObj.pathname = pathname.replace(/\\/+$/, '')`,
the guarded first pathname statement shared by both `normalizeUrl`
variants. -/
def stripTrailStep (p : List Char) : List Char :=
  if p ≠ ['/'] then setPathname (stripTrailingSlashes p) else p

/-- The three pathname statements of the part_003 `normalizeUrl`, in
source order; each assignment goes through the pathname setter. -/
def normalizePath (p : List Char) : List Char :=
  setPathname (stripIndexSuffix (setPathname (collapseSlashes (stripTrailStep p))))

/-- Model of `normalizeUrl` of the fuller urlUtils variant (part_003): drop the
fragment, strip trailing slashes (except the root path), collapse
duplicate slashes, strip one trailing index/default filename, delete
tracking parameters, sort the remaining query parameters, lowercase the
hostname. -/
def normalizeUrl (u : UrlObj) : UrlObj :=
  { scheme := u.scheme
    hostname := toLowerL u.hostname
    pathname := normalizePath u.pathname
    params := sortPairs (deleteTrackingParams u.params)
    hash := "" }

/-- Model of `normalizeUrl` of `src/src/utils/urlUtils.js`: only fragment
removal, trailing-slash stripping and query sorting. -/
def normalizeUrlSimple (u : UrlObj) : UrlObj :=
  { scheme := u.scheme
    hostname := u.hostname
    pathname := stripTrailStep u.pathname
    params := sortPairs u.params
    hash := "" }

/- ### Character-level facts about lowercasing -/

theorem char_toNat_ofNat {n : Nat} (h : n < 55296) : (Char.ofNat n).toNat = n := by
  have hv : n.isValidChar := Or.inl h
  rw [Char.ofNat, dif_pos hv]
  simp [Char.ofNatAux, Char.toNat, UInt32.toNat]

theorem toLower_toLower (c : Char) : c.toLower.toLower = c.toLower := by
  by_cases h : c.toNat ≥ 65 ∧ c.toNat ≤ 90
  · have h1 : c.toLower = Char.ofNat (c.toNat + 32) := by
      simp only [Char.toLower]
      rw [if_pos h]
    have h2 : (Char.ofNat (c.toNat + 32)).toNat = c.toNat + 32 :=
      char_toNat_ofNat (by omega)
    rw [h1]
    simp only [Char.toLower]
    rw [h2, if_neg (by omega)]
  · have h1 : c.toLower = c := by
      simp only [Char.toLower]
      rw [if_neg h]
    rw [h1, h1]

theorem toLower_eq_slash {c : Char} (h : c.toLower = '/') : c = '/' := by
  by_cases hc : c.toNat ≥ 65 ∧ c.toNat ≤ 90
  · exfalso
    have h1 : c.toLower.toNat = c.toNat + 32 := by
      simp only [Char.toLower]
      rw [if_pos hc]
      exact char_toNat_ofNat (by omega)
    rw [h] at h1
    have h47 : ('/' : Char).toNat = 47 := rfl
    omega
  · have h1 : c.toLower = c := by
      simp only [Char.toLower]
      rw [if_neg hc]
    rw [← h1, h]

theorem toLowerL_toLowerL (l : List Char) : toLowerL (toLowerL l) = toLowerL l := by
  induction l with
  | nil => rfl
  | cons a t ih =>
    simp only [toLowerL, List.map_cons] at ih ⊢
    rw [toLower_toLower, ih]

/- ### Path-shape facts used for idempotence -/

theorem setPathname_ne_nil (l : List Char) : setPathname l ≠ [] := by
  unfold setPathname
  split
  · simp
  · assumption

theorem setPathname_of_ne_nil {l : List Char} (h : l ≠ []) : setPathname l = l := by
  unfold setPathname
  exact if_neg h

theorem stripTrailingSlashes_getLast? (l : List Char) :
    (stripTrailingSlashes l).getLast? ≠ some '/' := by
  unfold stripTrailingSlashes
  rw [List.getLast?_reverse]
  intro h
  have hw := List.head?_dropWhile_not (· == '/') l.reverse
  rw [h] at hw
  simp at hw

theorem head?_collapseSlashes (a : Char) (l : List Char) :
    (collapseSlashes (a :: l)).head? = some a := by
  induction l generalizing a with
  | nil => rfl
  | cons b rest ih =>
    rw [collapseSlashes]
    split
    · rename_i hab
      have hb : a = b := by
        have := (Bool.and_eq_true _ _).mp hab
        have h1 : a = '/' := by simpa using this.1
        have h2 : b = '/' := by simpa using this.2
        rw [h1, h2]
      rw [hb]
      exact ih b
    · rfl

theorem collapseSlashes_ne_nil (a : Char) (l : List Char) :
    collapseSlashes (a :: l) ≠ [] := by
  intro h
  have := head?_collapseSlashes a l
  rw [h] at this
  cases this

theorem hasDoubleSlash_collapseSlashes (l : List Char) :
    hasDoubleSlash (collapseSlashes l) = false := by
  induction l with
  | nil => rfl
  | cons a t ih =>
    cases t with
    | nil => rfl
    | cons b rest =>
      rw [collapseSlashes]
      split
      · exact ih
      · rename_i hab
        cases hc : collapseSlashes (b :: rest) with
        | nil => exact absurd hc (collapseSlashes_ne_nil b rest)
        | cons x u =>
          have hx : x = b := by
            have := head?_collapseSlashes b rest
            rw [hc] at this
            cases this
            rfl
          subst hx
          rw [hasDoubleSlash]
          rw [hc] at ih
          simp only [Bool.or_eq_false_iff]
          refine ⟨?_, ih⟩
          simpa using hab

theorem collapseSlashes_of_no_doubleSlash {l : List Char}
    (h : hasDoubleSlash l = false) : collapseSlashes l = l := by
  induction l with
  | nil => rfl
  | cons a t ih =>
    cases t with
    | nil => rfl
    | cons b rest =>
      rw [hasDoubleSlash] at h
      simp only [Bool.or_eq_false_iff] at h
      rw [collapseSlashes, if_neg (by simp [h.1]), ih h.2]

theorem getLast?_collapseSlashes (l : List Char) :
    (collapseSlashes l).getLast? = l.getLast? := by
  induction l with
  | nil => rfl
  | cons a t ih =>
    cases t with
    | nil => rfl
    | cons b rest =>
      rw [collapseSlashes]
      split
      · rw [ih, List.getLast?_cons_cons]
      · cases hc : collapseSlashes (b :: rest) with
        | nil => exact absurd hc (collapseSlashes_ne_nil b rest)
        | cons x u =>
          calc (a :: x :: u).getLast? = (x :: u).getLast? := List.getLast?_cons_cons
            _ = (collapseSlashes (b :: rest)).getLast? := by rw [hc]
            _ = (b :: rest).getLast? := ih
            _ = (a :: b :: rest).getLast? := List.getLast?_cons_cons.symm

theorem hasDoubleSlash_take (l : List Char) (n : Nat)
    (h : hasDoubleSlash l = false) : hasDoubleSlash (l.take n) = false := by
  induction l generalizing n with
  | nil => simp [hasDoubleSlash]
  | cons a t ih =>
    cases t with
    | nil =>
      cases n with
      | zero => rfl
      | succ m => cases m <;> rfl
    | cons b rest =>
      rw [hasDoubleSlash] at h
      simp only [Bool.or_eq_false_iff] at h
      cases n with
      | zero => rfl
      | succ m =>
        cases m with
        | zero => rfl
        | succ k =>
          have e1 : (a :: b :: rest).take (k + 2) = a :: b :: rest.take k := by
            simp [List.take_succ_cons]
          rw [e1, hasDoubleSlash]
          have htail : hasDoubleSlash ((b :: rest).take (k + 1)) = false :=
            ih (k + 1) h.2
          rw [List.take_succ_cons] at htail
          simp only [Bool.or_eq_false_iff]
          exact ⟨h.1, htail⟩

theorem hasDoubleSlash_append {x y : List Char}
    (hx : x.getLast? = some '/') (hy : y.head? = some '/') :
    hasDoubleSlash (x ++ y) = true := by
  induction x with
  | nil => cases hx
  | cons a t ih =>
    cases t with
    | nil =>
      have ha : a = '/' := by
        cases hx
        rfl
      cases y with
      | nil => cases hy
      | cons c u =>
        have hc : c = '/' := by
          cases hy
          rfl
        subst ha hc
        simp [hasDoubleSlash]
    | cons b rest =>
      rw [List.getLast?_cons_cons] at hx
      have hrec := ih hx
      rw [List.cons_append] at hrec
      rw [List.cons_append, List.cons_append, hasDoubleSlash, hrec]
      simp

theorem stripTrailingSlashes_of_getLast? {l : List Char}
    (h : l.getLast? ≠ some '/') : stripTrailingSlashes l = l := by
  unfold stripTrailingSlashes
  cases hr : l.reverse with
  | nil =>
    have : l = [] := by simpa using congrArg List.reverse hr
    simp [this]
  | cons a t =>
    have ha : a ≠ '/' := by
      intro he
      apply h
      rw [← List.head?_reverse, hr, he]
      rfl
    rw [List.dropWhile_cons_of_neg (by simpa using ha), ← hr, List.reverse_reverse]

theorem stripTrailStep_ne_nil (p : List Char) : stripTrailStep p ≠ [] := by
  unfold stripTrailStep
  split
  · exact setPathname_ne_nil _
  · rename_i h
    simp at h
    simp [h]

theorem stripTrailStep_getLast? (p : List Char) :
    stripTrailStep p = ['/'] ∨ (stripTrailStep p).getLast? ≠ some '/' := by
  unfold stripTrailStep
  split
  · cases hs : stripTrailingSlashes p with
    | nil => left; simp [hs, setPathname]
    | cons a t =>
      right
      rw [setPathname_of_ne_nil (by simp [hs])]
      rw [← hs]
      exact stripTrailingSlashes_getLast? p
  · rename_i h
    simp at h
    left
    exact h

theorem stripTrailStep_of_shape {d : List Char}
    (hlast : d = ['/'] ∨ d.getLast? ≠ some '/') (hne : d ≠ []) :
    stripTrailStep d = d := by
  unfold stripTrailStep
  rcases hlast with h | h
  · rw [if_neg (by simp [h])]
  · split
    · rw [stripTrailingSlashes_of_getLast? h, setPathname_of_ne_nil hne]
    · rfl

theorem hasDoubleSlash_setPathname {l : List Char}
    (h : hasDoubleSlash l = false) : hasDoubleSlash (setPathname l) = false := by
  unfold setPathname
  split
  · rfl
  · exact h

theorem stripIndexSuffix_of_not_has {l : List Char}
    (h : hasIndexSuffix l = false) : stripIndexSuffix l = l := by
  unfold stripIndexSuffix
  unfold hasIndexSuffix at h
  cases hf : findIndexSuffix l with
  | none => rfl
  | some pat => rw [hf] at h; cases h

theorem indexSuffixes_head {pat : List Char} (h : pat ∈ indexSuffixes) :
    pat.head? = some '/' := by
  fin_cases h <;> rfl

theorem head?_eq_slash_of_toLowerL {l m : List Char}
    (h : toLowerL l = toLowerL m) (hm : m.head? = some '/') :
    l.head? = some '/' := by
  cases m with
  | nil => cases hm
  | cons p0 pr =>
    have hp0 : p0 = '/' := by
      cases hm
      rfl
    cases l with
    | nil => simp [toLowerL] at h
    | cons y ys =>
      simp only [toLowerL, List.map_cons, List.cons.injEq] at h
      have hy : y = '/' := toLower_eq_slash (by rw [h.1, hp0]; rfl)
      rw [hy]
      rfl

/-- Shape of a pathname produced by `normalizePath`: nonempty, no
duplicate separators, and no trailing slash unless it is the root. -/
theorem normalizePath_shape (p : List Char) :
    normalizePath p ≠ []
    ∧ hasDoubleSlash (normalizePath p) = false
    ∧ (normalizePath p = ['/'] ∨ (normalizePath p).getLast? ≠ some '/') := by
  have hb_ne : stripTrailStep p ≠ [] := stripTrailStep_ne_nil p
  have hb_last := stripTrailStep_getLast? p
  obtain ⟨b0, bt, hbcons⟩ : ∃ x xs, stripTrailStep p = x :: xs := by
    cases hb : stripTrailStep p with
    | nil => exact absurd hb hb_ne
    | cons x xs => exact ⟨x, xs, rfl⟩
  have hcol_ne : collapseSlashes (stripTrailStep p) ≠ [] := by
    rw [hbcons]
    exact collapseSlashes_ne_nil b0 bt
  have hc_eq : setPathname (collapseSlashes (stripTrailStep p))
      = collapseSlashes (stripTrailStep p) := setPathname_of_ne_nil hcol_ne
  have hc_hds : hasDoubleSlash (collapseSlashes (stripTrailStep p)) = false :=
    hasDoubleSlash_collapseSlashes (stripTrailStep p)
  have hc_last : collapseSlashes (stripTrailStep p) = ['/']
      ∨ (collapseSlashes (stripTrailStep p)).getLast? ≠ some '/' := by
    rcases hb_last with h | h
    · left
      rw [h]
      rfl
    · right
      rw [getLast?_collapseSlashes]
      exact h
  unfold normalizePath
  rw [hc_eq]
  cases hf : findIndexSuffix (collapseSlashes (stripTrailStep p)) with
  | none =>
    have hstrip : stripIndexSuffix (collapseSlashes (stripTrailStep p))
        = collapseSlashes (stripTrailStep p) := by
      unfold stripIndexSuffix
      rw [hf]
    rw [hstrip, setPathname_of_ne_nil hcol_ne]
    exact ⟨hcol_ne, hc_hds, hc_last⟩
  | some pat =>
    have hmem : pat ∈ indexSuffixes := List.mem_of_find?_eq_some hf
    have hci : endsWithCI (collapseSlashes (stripTrailStep p)) pat = true :=
      List.find?_some hf
    have hstrip : stripIndexSuffix (collapseSlashes (stripTrailStep p))
        = (collapseSlashes (stripTrailStep p)).take
            ((collapseSlashes (stripTrailStep p)).length - pat.length) := by
      unfold stripIndexSuffix
      rw [hf]
    rw [hstrip]
    cases hpre : (collapseSlashes (stripTrailStep p)).take
        ((collapseSlashes (stripTrailStep p)).length - pat.length) with
    | nil =>
      refine ⟨by simp [setPathname], by simp [setPathname, hasDoubleSlash], ?_⟩
      left
      simp [setPathname]
    | cons q0 qt =>
      rw [setPathname_of_ne_nil (by simp [hpre])]
      rw [← hpre]
      refine ⟨by simp [hpre], hasDoubleSlash_take _ _ hc_hds, ?_⟩
      right
      intro hlast
      have hsuf : (toLowerL pat) <:+ (toLowerL (collapseSlashes (stripTrailStep p))) := by
        unfold endsWithCI at hci
        exact List.isSuffixOf_iff_suffix.mp hci
      obtain ⟨t, ht⟩ := hsuf
      have hlen : t.length + pat.length
          = (collapseSlashes (stripTrailStep p)).length := by
        have := congrArg List.length ht
        simpa [toLowerL] using this
      have hdropLow : toLowerL ((collapseSlashes (stripTrailStep p)).drop
          ((collapseSlashes (stripTrailStep p)).length - pat.length)) = toLowerL pat := by
        have h1 : (toLowerL (collapseSlashes (stripTrailStep p))).drop t.length
            = toLowerL pat := by
          rw [← ht, List.drop_left]
        have h2 : t.length
            = (collapseSlashes (stripTrailStep p)).length - pat.length := by omega
        rw [← h2]
        rw [← h1, toLowerL, toLowerL, List.map_drop]
      have hhead : ((collapseSlashes (stripTrailStep p)).drop
          ((collapseSlashes (stripTrailStep p)).length - pat.length)).head?
            = some '/' :=
        head?_eq_slash_of_toLowerL hdropLow (indexSuffixes_head hmem)
      have hdbl := hasDoubleSlash_append hlast hhead
      rw [List.take_append_drop] at hdbl
      rw [hc_hds] at hdbl
      cases hdbl

/-- A pathname already produced by `normalizePath` and not still ending
in an index/default filename is a fixed point of `normalizePath`. -/
theorem normalizePath_idem (p : List Char)
    (h : hasIndexSuffix (normalizePath p) = false) :
    normalizePath (normalizePath p) = normalizePath p := by
  obtain ⟨hne, hds, hlast⟩ := normalizePath_shape p
  have h1 : stripTrailStep (normalizePath p) = normalizePath p :=
    stripTrailStep_of_shape hlast hne
  show setPathname (stripIndexSuffix (setPathname (collapseSlashes
      (stripTrailStep (normalizePath p))))) = normalizePath p
  rw [h1, collapseSlashes_of_no_doubleSlash hds, setPathname_of_ne_nil hne,
    stripIndexSuffix_of_not_has h, setPathname_of_ne_nil hne]

/-- The result of one `stripTrailStep` is a fixed point of another. -/
theorem stripTrailStep_idem (p : List Char) :
    stripTrailStep (stripTrailStep p) = stripTrailStep p :=
  stripTrailStep_of_shape (stripTrailStep_getLast? p) (stripTrailStep_ne_nil p)

/- ### Query-parameter facts -/

theorem sortPairs_sorted (l : List (String × String)) :
    (sortPairs l).Sorted pairLe :=
  List.sorted_insertionSort pairLe l

theorem sortPairs_of_sorted {l : List (String × String)}
    (h : l.Sorted pairLe) : sortPairs l = l :=
  List.Sorted.insertionSort_eq h

theorem mem_sortPairs {kv : String × String} {l : List (String × String)} :
    kv ∈ sortPairs l ↔ kv ∈ l :=
  (List.perm_insertionSort pairLe l).mem_iff

theorem deleteTrackingParams_mem {kv : String × String}
    {l : List (String × String)} (h : kv ∈ deleteTrackingParams l) :
    kv.1 ∉ trackingParams := by
  have := List.of_mem_filter h
  simpa using this

theorem deleteTrackingParams_of_clean {l : List (String × String)}
    (h : ∀ kv ∈ l, kv.1 ∉ trackingParams) : deleteTrackingParams l = l :=
  List.filter_eq_self.mpr (fun kv hkv => by simpa using h kv hkv)

theorem normalizedParams_idem (x : List (String × String)) :
    sortPairs (deleteTrackingParams (sortPairs (deleteTrackingParams x)))
      = sortPairs (deleteTrackingParams x) := by
  have hclean : ∀ kv ∈ sortPairs (deleteTrackingParams x), kv.1 ∉ trackingParams :=
    fun kv hkv => deleteTrackingParams_mem (mem_sortPairs.mp hkv)
  rw [deleteTrackingParams_of_clean hclean,
    sortPairs_of_sorted (sortPairs_sorted (deleteTrackingParams x))]

/- ### Theorems for claims C5 and C6 -/

/-- The concrete URL `https://a.com/index.html/index.html`, parsed. -/
def doubleIndexUrl : UrlObj :=
  { scheme := "https:"
    hostname := "a.com".data
    pathname := "/index.html/index.html".data
    params := []
    hash := "" }

/-- C5 counterexample: normalization is not idempotent.  On
`https://a.com/index.html/index.html` one pass strips only the final
`/index.html` (leaving path `/index.html`), and a second pass strips
again (leaving `/`). -/
theorem normalizeUrl_not_idempotent_at_doubleIndexUrl :
    normalizeUrl (normalizeUrl doubleIndexUrl) ≠ normalizeUrl doubleIndexUrl := by
  intro h
  exact absurd (congrArg UrlObj.pathname h) (by decide)

/-- C5 (amended): `normalizeUrl` of the simple `urlUtils.js` variant is
idempotent for every parsed URL, and `normalizeUrl` of the fuller
part_003 variant is idempotent for every parsed URL whose normalized
pathname does not still end in an index/default filename (stripping the
final index filename once can expose another, and only then does a
second pass differ). -/
theorem normalizeUrl_idempotent (u v : UrlObj)
    (h : hasIndexSuffix (normalizeUrl u).pathname = false) :
    normalizeUrl (normalizeUrl u) = normalizeUrl u
    ∧ normalizeUrlSimple (normalizeUrlSimple v) = normalizeUrlSimple v := by
  constructor
  · simp only [normalizeUrl]
    rw [toLowerL_toLowerL, normalizePath_idem u.pathname h, normalizedParams_idem]
  · simp only [normalizeUrlSimple]
    rw [stripTrailStep_idem, sortPairs_of_sorted (sortPairs_sorted v.params)]

/-- Witness for `normalizeUrl_idempotent` at a concrete URL with a
trailing slash, duplicate separators, tracking parameters and unsorted
query parameters. -/
theorem normalizeUrl_idempotent_witness :
    hasIndexSuffix (normalizeUrl
      { scheme := "https:", hostname := "A.com".data,
        pathname := "/a//b/".data,
        params := [("b", "2"), ("a", "1"), ("utm_source", "x")],
        hash := "#frag" }).pathname = false
    ∧ normalizeUrl (normalizeUrl
        { scheme := "https:", hostname := "A.com".data,
          pathname := "/a//b/".data,
          params := [("b", "2"), ("a", "1"), ("utm_source", "x")],
          hash := "#frag" })
      = normalizeUrl
        { scheme := "https:", hostname := "A.com".data,
          pathname := "/a//b/".data,
          params := [("b", "2"), ("a", "1"), ("utm_source", "x")],
          hash := "#frag" }
    ∧ normalizeUrlSimple (normalizeUrlSimple
        { scheme := "http:", hostname := "b.org".data,
          pathname := "/x/".data, params := [("q", "1")], hash := "#y" })
      = normalizeUrlSimple
        { scheme := "http:", hostname := "b.org".data,
          pathname := "/x/".data, params := [("q", "1")], hash := "#y" } :=
  ⟨by decide,
    (normalizeUrl_idempotent _
      { scheme := "http:", hostname := "b.org".data,
        pathname := "/x/".data, params := [("q", "1")], hash := "#y" }
      (by decide)).1,
    (normalizeUrl_idempotent
      { scheme := "https:", hostname := "A.com".data,
        pathname := "/a//b/".data,
        params := [("b", "2"), ("a", "1"), ("utm_source", "x")],
        hash := "#frag" } _ (by decide)).2⟩

/-- C6 counterexample: the normalized URL can still end in an
index/default filename.  Normalizing
`https://a.com/index.html/index.html` yields pathname `/index.html`,
which the index-filename pattern still matches. -/
theorem normalizeUrl_result_can_keep_index_suffix :
    hasIndexSuffix (normalizeUrl doubleIndexUrl).pathname = true
    ∧ (normalizeUrl doubleIndexUrl).pathname = "/index.html".data := by
  constructor
  · decide
  · decide

/-- C6 (amended): every clause of the claim holds of a normalized URL —
no fragment, no duplicate path separators, no trailing slash except the
root path, no tracking query parameters, remaining query parameters
sorted by the JS default comparator, lowercase hostname — except the
index/default-filename clause: the trailing index/default filename is
stripped once, and when the stripped segment exposes another such
filename the result still ends with it. -/
theorem normalizeUrl_result_properties (u : UrlObj) :
    (normalizeUrl u).hash = ""
    ∧ hasDoubleSlash (normalizeUrl u).pathname = false
    ∧ ((normalizeUrl u).pathname = ['/']
        ∨ ((normalizeUrl u).pathname).getLast? ≠ some '/')
    ∧ (∀ kv ∈ (normalizeUrl u).params, kv.1 ∉ trackingParams)
    ∧ ((normalizeUrl u).params).Sorted pairLe
    ∧ toLowerL ((normalizeUrl u).hostname) = (normalizeUrl u).hostname := by
  obtain ⟨hne, hds, hlast⟩ := normalizePath_shape u.pathname
  exact ⟨rfl, hds, hlast,
    fun kv hkv => deleteTrackingParams_mem (mem_sortPairs.mp hkv),
    sortPairs_sorted _, toLowerL_toLowerL _⟩

/- ## Start endpoint (`src/app/api/crawl/start/route.ts`)

`POST` is modelled as a pure function of the request body, the
module-level `activeCrawls` set (as a list), and the platform `URL`
constructor, which is an external collaborator and therefore a
parameter: `parseUrl s = none` models `new URL(s)` throwing.  The
response, the progress file written (if any), whether
`runCrawlerAsync` was invoked, and the new `activeCrawls` are returned
explicitly. -/

structure UrlProto where
  protocol : String
deriving Repr, DecidableEq

/-- The request body; `none` models an absent (`undefined`) field. -/
structure StartRequest where
  seedUrl : Option String
  universityName : Option String
deriving Repr, DecidableEq

structure PostResponse where
  status : Nat
  success : Bool
  crawlId : Option String
deriving Repr, DecidableEq

structure PostOutcome where
  response : PostResponse
  progressWritten : Option (String × ProgressRecord)
  crawlStarted : Bool
  activeAfter : List String
deriving Repr, DecidableEq

/-- JS falsiness of the two string fields (`!seedUrl`,
`!universityName`): absent or the empty string. -/
def fieldFalsy : Option String → Bool
  | none => true
  | some s => s == ""

/-- The `crawlId` derivation in `route.ts`, textually the same
expression as in `getProgressFilePath`. -/
def routeCrawlId (name : String) : String :=
  String.mk ((replaceRuns isJsWhitespace '-' (name.data.map Char.toLower)).filter isLabelChar)

/-- The `initialProgress` object written by `POST`. -/
def routeInitialProgress (seedUrl universityName now : String) : ProgressRecord :=
  { status := "starting"
    pagesProcessed := 0
    totalEnqueued := 0
    currentUrl := seedUrl
    startTime := now
    endTime := none
    seedUrl := seedUrl
    universityName := universityName
    error := none
    outputFile := none }

/-- Model of `POST` (route.ts). -/
def POST (parseUrl : String → Option UrlProto) (now : String)
    (active : List String) (req : StartRequest) : PostOutcome :=
  if fieldFalsy req.seedUrl then
    ⟨⟨400, false, none⟩, none, false, active⟩
  else if fieldFalsy req.universityName then
    ⟨⟨400, false, none⟩, none, false, active⟩
  else
    let s := req.seedUrl.getD ""
    let n := req.universityName.getD ""
    match parseUrl s with
    | none => ⟨⟨400, false, none⟩, none, false, active⟩
    | some u =>
      if u.protocol ≠ "http:" ∧ u.protocol ≠ "https:" then
        ⟨⟨400, false, none⟩, none, false, active⟩
      else
        let crawlId := routeCrawlId n
        if crawlId ∈ active then
          ⟨⟨409, false, none⟩, none, false, active⟩
        else
          ⟨⟨200, true, some crawlId⟩,
            some (crawlId, routeInitialProgress s n now),
            true, active ++ [crawlId]⟩

/-- The request fails validation: falsy seed URL or label, unparsable
seed URL, or a non-http(s) protocol. -/
def startRequestInvalid (parseUrl : String → Option UrlProto)
    (req : StartRequest) : Bool :=
  fieldFalsy req.seedUrl || fieldFalsy req.universityName ||
    (match parseUrl (req.seedUrl.getD "") with
     | none => true
     | some u => decide (u.protocol ≠ "http:" ∧ u.protocol ≠ "https:"))

/-- C8: an invalid start request (malformed or non-http(s) seed URL, or
empty/missing label) is answered with a 400 error and creates no crawl
state — no progress record is written, no crawl begins, the active set
is unchanged; a valid request whose derived identifier is not already
active writes the initial `"starting"` progress record synchronously
and returns the derived job identifier with success. -/
theorem start_route_validation (parseUrl : String → Option UrlProto)
    (now : String) (active : List String) (req : StartRequest) :
    (startRequestInvalid parseUrl req = true →
      (POST parseUrl now active req).response.status = 400
      ∧ (POST parseUrl now active req).response.success = false
      ∧ (POST parseUrl now active req).progressWritten = none
      ∧ (POST parseUrl now active req).crawlStarted = false
      ∧ (POST parseUrl now active req).activeAfter = active)
    ∧ (∀ s n, req.seedUrl = some s → req.universityName = some n →
        startRequestInvalid parseUrl req = false →
        routeCrawlId n ∉ active →
        (POST parseUrl now active req).progressWritten
            = some (routeCrawlId n, routeInitialProgress s n now)
        ∧ (POST parseUrl now active req).response
            = ⟨200, true, some (routeCrawlId n)⟩
        ∧ (POST parseUrl now active req).crawlStarted = true) := by
  constructor
  · intro hinv
    unfold POST
    unfold startRequestInvalid at hinv
    by_cases h1 : fieldFalsy req.seedUrl
    · simp [h1]
    · by_cases h2 : fieldFalsy req.universityName
      · simp [h1, h2]
      · simp only [h1, h2, Bool.false_or] at hinv
        simp only [Bool.not_eq_true] at h1 h2
        cases hp : parseUrl (req.seedUrl.getD "") with
        | none => simp [h1, h2, hp]
        | some u =>
          rw [hp] at hinv
          simp only [decide_eq_true_eq] at hinv
          simp [h1, h2, hp, hinv]
  · intro s n hs hn hval hact
    unfold POST
    unfold startRequestInvalid at hval
    rw [hs, hn] at hval ⊢
    simp only [Option.getD_some] at hval ⊢
    simp only [Bool.or_eq_false_iff] at hval
    obtain ⟨⟨h1, h2⟩, h3⟩ := hval
    cases hp : parseUrl s with
    | none => rw [hp] at h3; cases h3
    | some u =>
      rw [hp] at h3
      simp only [decide_eq_false_iff_not] at h3
      simp [h1, h2, hp, h3, hact]

/-- A concrete stand-in for the platform `URL` constructor, used only to
witness `start_route_validation`. -/
def demoParse : String → Option UrlProto := fun s =>
  if s = "https://u.edu" then some ⟨"https:"⟩
  else if s = "ftp://u.edu" then some ⟨"ftp:"⟩
  else none

/-- Witness for `start_route_validation`: a rejected `ftp:` request and
an accepted `https:` request. -/
theorem start_route_validation_witness :
    ((POST demoParse "t0" [] ⟨some "ftp://u.edu", some "Test U"⟩).response.status = 400
      ∧ (POST demoParse "t0" [] ⟨some "ftp://u.edu", some "Test U"⟩).response.success = false
      ∧ (POST demoParse "t0" [] ⟨some "ftp://u.edu", some "Test U"⟩).progressWritten = none
      ∧ (POST demoParse "t0" [] ⟨some "ftp://u.edu", some "Test U"⟩).crawlStarted = false
      ∧ (POST demoParse "t0" [] ⟨some "ftp://u.edu", some "Test U"⟩).activeAfter = [])
    ∧ ((POST demoParse "t0" [] ⟨some "https://u.edu", some "Test University"⟩).progressWritten
        = some (routeCrawlId "Test University",
            routeInitialProgress "https://u.edu" "Test University" "t0")
      ∧ (POST demoParse "t0" [] ⟨some "https://u.edu", some "Test University"⟩).response
        = ⟨200, true, some (routeCrawlId "Test University")⟩
      ∧ (POST demoParse "t0" [] ⟨some "https://u.edu", some "Test University"⟩).crawlStarted
        = true) :=
  ⟨(start_route_validation demoParse "t0" []
      ⟨some "ftp://u.edu", some "Test U"⟩).1 (by decide),
   (start_route_validation demoParse "t0" []
      ⟨some "https://u.edu", some "Test University"⟩).2
      "https://u.edu" "Test University" rfl rfl (by decide) (by decide)⟩
